import Mathlib

/-
Verification of the k8s-ipam allocation engine against its specification.

The development shallowly embeds the Go sources:
  - internal/ipam/watcher.go            (watch registry and update fan-out)
  - the ipam engine entrypoints          (Create, AllocateIPPrefix, GetPrefixes)
  - pkg/proxy/clientproxy ValidateIpamResponse

Go maps are embedded as association lists with unique keys (lookupA,
updateA, removeA below mirror map read, map write of an existing key and
map delete).  Components of the repository that are referenced by the
sources but whose code is not part of the excerpt (the per-instance RIB
table, the runtime Validate and Apply operations, the ipamRib registry and
the persistence backend) are modelled from the specification; each such
definition carries a doc comment saying so.
-/

/-- Association-list lookup, mirroring a Go map read: returns the value of
the first binding of the key. -/
def lookupA {α : Type} : List (String × α) → String → Option α
  | [], _ => none
  | (k, x) :: rest, key => if k = key then some x else lookupA rest key

/-- Association-list update of the first binding of a key, mirroring a Go
map write to an existing key.  Bindings of other keys are unchanged. -/
def updateA {α : Type} : List (String × α) → String → (α → α) → List (String × α)
  | [], _, _ => []
  | (k, x) :: rest, key, f =>
    if k = key then (k, f x) :: rest else (k, x) :: updateA rest key f

/-- Association-list removal of the first binding of a key, mirroring a Go
map delete (which is a no-op when the key is absent). -/
def removeA {α : Type} : List (String × α) → String → List (String × α)
  | [], _ => []
  | (k, x) :: rest, key => if k = key then rest else (k, x) :: removeA rest key

/-- An IPv4 CIDR: four octets and a mask length, embedding the prefix
strings such as "10.0.0.2/24" that the sources carry around. -/
structure Prefix4 where
  o1 : Nat
  o2 : Nat
  o3 : Nat
  o4 : Nat
  len : Nat
deriving DecidableEq

/-- The 32-bit integer value of the address of a CIDR. -/
def addrVal (p : Prefix4) : Nat :=
  ((p.o1 * 256 + p.o2) * 256 + p.o3) * 256 + p.o4

/-- CIDR containment: p contains q when p is no more specific than q and
both addresses agree on the top p.len bits. -/
def containsP (p q : Prefix4) : Bool :=
  decide (p.len ≤ q.len) &&
    decide (addrVal p / 2 ^ (32 - p.len) = addrVal q / 2 ^ (32 - p.len))

/-- Renders a CIDR back to its source string form. -/
def renderP (p : Prefix4) : String :=
  toString p.o1 ++ "." ++ toString p.o2 ++ "." ++ toString p.o3 ++ "." ++
    toString p.o4 ++ "/" ++ toString p.len

/-- The closed set of prefix kinds of apis/ipam/v1alpha1
(network, loopback, pool, aggregate). -/
inductive PrefixKind where
  | network
  | loopback
  | pool
  | aggregate
deriving DecidableEq

/-- A route of a per-instance table (table.Route of the RIB): the CIDR of
the route, its label map, and the prefix kind and createPrefix recorded at
apply time.  Modelled from the spec: the RIB table package is not part of
the excerpt; the spec stores kind and createPrefix as route metadata, which
the embedding keeps as dedicated fields next to the free-form labels. -/
structure Route where
  pfx : Prefix4
  labels : List (String × String)
  prefixKind : PrefixKind
  createPrefix : Bool
deriving DecidableEq

/- ------------------------------------------------------------------ -/
/- Watcher (internal/ipam/watcher.go), embedded from the source.       -/
/- ------------------------------------------------------------------ -/

/-- The watch registry watcher.d: outer key is the ownerGvk label key,
inner key is the ownerGvk value; callbacks are identified by a Nat. -/
abbrev WatchRegistry := List (String × List (String × Nat))

/-- One entry of the updateMap built by handleUpdate: the callback chosen
when the entry was created and the routes accumulated for this owner
value. -/
structure UpdateEntry where
  fn : Nat
  routes : List Route
deriving DecidableEq

/-- Body of the innermost updateMap mutation of watcher.handleUpdate:
initialize the entry of the value if absent (recording the callback of the
matching registration), then append the route to the entry.  The callback
of an existing entry is not overwritten, exactly as in the source. -/
def addRouteU (m : List (String × UpdateEntry)) (v : String) (fn : Nat)
    (rt : Route) : List (String × UpdateEntry) :=
  match lookupA m v with
  | some _ => updateA m v (fun e => ⟨e.fn, e.routes ++ [rt]⟩)
  | none => m ++ [(v, ⟨fn, [rt]⟩)]

/-- Inner loop of watcher.handleUpdate over the value map of one ownerGvk
key: v is the label value the route carries under that key. -/
def procVals (v : String) (rt : Route) (m : List (String × UpdateEntry))
    (vs : List (String × Nat)) : List (String × UpdateEntry) :=
  vs.foldl (fun m vf => if v = vf.1 then addRouteU m v vf.2 rt else m) m

/-- Middle loop of watcher.handleUpdate: for one route, walk the registry;
if the route carries a label under the ownerGvk key, process the value
map. -/
def procRoute (d : WatchRegistry) (m : List (String × UpdateEntry))
    (rt : Route) : List (String × UpdateEntry) :=
  d.foldl
    (fun m kv =>
      match lookupA rt.labels kv.1 with
      | some v => procVals v rt m kv.2
      | none => m)
    m

/-- The updateMap built by watcher.handleUpdate from a route set: keyed by
ownerGvk value, as in the source. -/
def handleUpdateMap (d : WatchRegistry) (routes : List Route) :
    List (String × UpdateEntry) :=
  routes.foldl (procRoute d) []

/-- watcher.handleUpdate: the list of callback invocations it performs,
each as (callback, routes passed, status code passed). -/
def handleUpdate (d : WatchRegistry) (routes : List Route) (code : Nat) :
    List (Nat × List Route × Nat) :=
  (handleUpdateMap d routes).map (fun e => (e.2.fn, e.2.routes, code))

/-- watcher.addWatch: create the inner map of the key if absent, then set
the binding of the value to the callback (overwriting an existing one). -/
def addWatch (d : WatchRegistry) (k v : String) (fn : Nat) : WatchRegistry :=
  match lookupA d k with
  | none => d ++ [(k, [(v, fn)])]
  | some _ =>
    updateA d k
      (fun vs =>
        match lookupA vs v with
        | none => vs ++ [(v, fn)]
        | some _ => updateA vs v (fun _ => fn))

/-- watcher.deleteWatch: delete the value binding when the key is present,
then prune the key when its inner map is empty (the source checks the
length of the possibly-absent inner map, which is zero for an absent
key). -/
def deleteWatch (d : WatchRegistry) (k v : String) : WatchRegistry :=
  let d1 :=
    match lookupA d k with
    | some _ => updateA d k (fun vs => removeA vs v)
    | none => d
  if ((lookupA d1 k).getD []).isEmpty then removeA d1 k else d1

/-- A single watch-registry operation, for reasoning about arbitrary
sequences of addWatch and deleteWatch calls. -/
inductive WatchOp where
  | add (k v : String) (fn : Nat)
  | del (k v : String)

/-- Apply one watch-registry operation. -/
def applyWatchOp (d : WatchRegistry) : WatchOp → WatchRegistry
  | .add k v fn => addWatch d k v fn
  | .del k v => deleteWatch d k v

/-- Run a sequence of watch-registry operations from the empty registry of
newWatcher. -/
def runWatchOps (ops : List WatchOp) : WatchRegistry :=
  ops.foldl applyWatchOp []

/- ------------------------------------------------------------------ -/
/- Instance registry and allocation engine.                            -/
/- ------------------------------------------------------------------ -/

/-- One network instance of the registry: its route table and the
initialized latch.  Modelled from the spec: the ipamRib type is not part
of the excerpt; the spec gives each instance exactly one table and a
one-shot initialized flag. -/
structure RibInstance where
  routes : List Route
  initialized : Bool
deriving DecidableEq

/-- The instance registry: network-instance name to instance. -/
abbrev IpamState := List (String × RibInstance)

/-- Modelled from the spec: ipamRib.create allocates an empty,
uninitialized table for the name when absent and is a no-op otherwise. -/
def ribCreate (s : IpamState) (name : String) : IpamState :=
  match lookupA s name with
  | some _ => s
  | none => s ++ [(name, ⟨[], false⟩)]

/-- Modelled from the spec: ipamRib.isInitialized reads the initialized
latch, false for an absent instance. -/
def isInitializedS (s : IpamState) (name : String) : Bool :=
  match lookupA s name with
  | some ri => ri.initialized
  | none => false

/-- Modelled from the spec: ipamRib.setInitialized sets the latch and
fails only when the instance is absent. -/
def setInitializedS (s : IpamState) (name : String) : IpamState × Option String :=
  match lookupA s name with
  | some _ => (updateA s name (fun ri => ⟨ri.routes, true⟩), none)
  | none => (s, some ("ipam ni not found: " ++ name))

/-- Modelled from the spec: ipamRib.getRIB resolves the table of a name;
it fails when the instance is absent, and, unless called while
initializing, also when the instance is not yet initialized (the engine
comments in the source state that an uninitialized network instance yields
an error). -/
def getRIB (s : IpamState) (name : String) (initializing : Bool) :
    Except String RibInstance :=
  match lookupA s name with
  | none => Except.error ("ipam ni not ready or not found: " ++ name)
  | some ri =>
    if initializing = false ∧ ri.initialized = false then
      Except.error ("ipam ni not initialized: " ++ name)
    else Except.ok ri

/-- An IPAllocation request together with its status fields, embedding
apis/ipam/v1alpha1 IPAllocation for requests that carry an explicit
prefix (dynamic allocation is outside the excerpted behavior). -/
structure IPAllocation where
  networkInstance : String
  prefixKind : PrefixKind
  pfx : Prefix4
  createPrefix : Bool
  labels : List (String × String)
  allocatedPrefix : Option Prefix4
  gateway : Option String
deriving DecidableEq

/-- The validation diagnostic of the spec for a network prefix without a
parent network prefix (the constant the test names
errValidateNetworkPrefixWoNetworkParent). -/
def errValidateNetworkPrefixWoNetworkParent : String :=
  "network prefix requires an existing parent network prefix"

/-- Modelled from the spec: the longest match restricted to parent network
routes, i.e. the most specific route of the table that has prefix kind
network, createPrefix true and contains the given CIDR. -/
def longestMatchNetParent (routes : List Route) (p : Prefix4) : Option Route :=
  (routes.filter
      (fun rt => rt.prefixKind = PrefixKind.network ∧ rt.createPrefix = true ∧
        containsP rt.pfx p = true)).foldl
    (fun best rt =>
      match best with
      | none => some rt
      | some b => if b.pfx.len < rt.pfx.len then some rt else best)
    none

/-- Modelled from the spec: the kind-specific Validate operation.  It is a
pure check returning a diagnostic string and an error; the only rule the
spec fixes is the one for kind network without createPrefix, whose
diagnostic is returned when no parent network route contains the request;
every other case passes.  Errors are reserved for structurally invalid
input, which the structured embedding rules out, so the error is none. -/
def opValidate (routes : List Route) (req : IPAllocation) :
    String × Option String :=
  match req.prefixKind with
  | PrefixKind.network =>
    if req.createPrefix = false then
      match longestMatchNetParent routes req.pfx with
      | none => (errValidateNetworkPrefixWoNetworkParent, none)
      | some _ => ("", none)
    else ("", none)
  | _ => ("", none)

/-- Modelled from the spec: Insert of the RIB table adds the route and
fails when a route with an identical prefix already exists. -/
def ribInsert (routes : List Route) (rt : Route) : Except String (List Route) :=
  if routes.any (fun r => r.pfx = rt.pfx) then
    Except.error ("route already exists")
  else Except.ok (routes ++ [rt])

/-- Modelled from the spec: the Apply operation for a request with an
explicit prefix.  For createPrefix true it inserts the route as given; for
createPrefix false it inserts exactly the requested prefix as a child
route, deriving the gateway of a network request from the gateway label of
the parent network route when present.  Both branches record the requested
prefix as the allocated prefix of the returned allocation. -/
def opApply (routes : List Route) (req : IPAllocation) :
    Except String (List Route × IPAllocation) :=
  if req.createPrefix = true then
    match ribInsert routes ⟨req.pfx, req.labels, req.prefixKind, true⟩ with
    | Except.error e => Except.error e
    | Except.ok rts =>
      Except.ok (rts,
        ⟨req.networkInstance, req.prefixKind, req.pfx, req.createPrefix,
          req.labels, some req.pfx, req.gateway⟩)
  else
    let gw : Option String :=
      match req.prefixKind with
      | PrefixKind.network =>
        match longestMatchNetParent routes req.pfx with
        | some parent => lookupA parent.labels "gateway"
        | none => none
      | _ => none
    match ribInsert routes ⟨req.pfx, req.labels, req.prefixKind, false⟩ with
    | Except.error e => Except.error e
    | Except.ok rts =>
      Except.ok (rts,
        ⟨req.networkInstance, req.prefixKind, req.pfx, req.createPrefix,
          req.labels, some req.pfx, gw⟩)

/-- ipam.AllocateIPPrefix, embedded from the source: resolve the runtime
operation (which fails when the instance is absent or uninitialized), run
Validate, turn a non-empty diagnostic into the error "validated failed:"
followed by the diagnostic, otherwise run Apply and return the updated
allocation together with the result of backend Store (supplied as the
storeErr oracle; the in-memory mutation is kept either way). -/
def AllocateIPPrefix (s : IpamState) (req : IPAllocation)
    (storeErr : Option String) :
    IpamState × Option IPAllocation × Option String :=
  match getRIB s req.networkInstance false with
  | Except.error e => (s, none, some e)
  | Except.ok ri =>
    match opValidate ri.routes req with
    | (_, some e) => (s, none, some e)
    | (msg, none) =>
      if msg ≠ "" then (s, none, some ("validated failed: " ++ msg))
      else
        match opApply ri.routes req with
        | Except.error e => (s, none, some e)
        | Except.ok (rts, upd) =>
          (updateA s req.networkInstance (fun ri => ⟨rts, ri.initialized⟩),
            some upd, storeErr)

/-- ipam.Create, embedded from the source: create the instance, and when
it is not yet initialized run backend Restore (an error is only logged; a
successful restore populates the table) and return the result of
setInitialized; when already initialized, return nil.  The restoreRes
oracle stands for the backend Restore call; the Bool of the result records
whether Restore was invoked. -/
def ipamCreate (s : IpamState) (name : String)
    (restoreRes : Except String (List Route)) :
    IpamState × Option String × Bool :=
  let s1 := ribCreate s name
  if isInitializedS s1 name then (s1, none, false)
  else
    let s2 :=
      match restoreRes with
      | Except.ok rts => updateA s1 name (fun ri => ⟨rts, ri.initialized⟩)
      | Except.error _ => s1
    let r := setInitializedS s2 name
    (r.1, r.2, true)

/-- ipam.Delete, embedded from the source: remove the instance from the
registry (the backend deletion error is only logged). -/
def ipamDelete (s : IpamState) (name : String) : IpamState :=
  removeA s name

/-- ipam.GetPrefixes, embedded from the source: resolve the table and
return its full snapshot, or the empty route list when the table cannot be
resolved. -/
def GetPrefixes (s : IpamState) (name : String) : List Route :=
  match getRIB s name false with
  | Except.error _ => []
  | Except.ok ri => ri.routes

/- ------------------------------------------------------------------ -/
/- Client proxy response validation (pkg/proxy/clientproxy).           -/
/- ------------------------------------------------------------------ -/

/-- The status fields of an alloc ipam IPAllocation as seen by the client
proxy after JSON unmarshalling. -/
structure JsonAllocStatus where
  allocatedPrefix : String
  gateway : String
deriving DecidableEq

/-- An allocpb.Response as far as ValidateIpamResponse reads it: its
Status string. -/
structure AllocPbResponse where
  status : String
deriving DecidableEq

/-- clientproxy.ValidateIpamResponse, embedded from the source with JSON
unmarshalling abstracted as a function from the status string to an
optional allocation (none embeds an unmarshal error).  Note the source
unmarshals the status of the original response into both origAlloc and
newAlloc. -/
def ValidateIpamResponse (unmarshal : String → Option JsonAllocStatus)
    (origResp newResp : AllocPbResponse) : Bool :=
  match unmarshal origResp.status with
  | none => false
  | some origAlloc =>
    match unmarshal origResp.status with
    | none => false
    | some newAlloc =>
      if origAlloc.allocatedPrefix ≠ newAlloc.allocatedPrefix ∨
          origAlloc.gateway ≠ newAlloc.gateway then false
      else true

/- ------------------------------------------------------------------ -/
/- The TestNetworkInstance scenario, embedded from the source test.    -/
/- ------------------------------------------------------------------ -/

/-- The network-instance name of the scenario. -/
def niName : String := "niName"

/-- CIDR 10.0.0.0/8. -/
def pAgg : Prefix4 := ⟨10, 0, 0, 0, 8⟩

/-- CIDR 10.0.0.1/24. -/
def pNetParent : Prefix4 := ⟨10, 0, 0, 1, 24⟩

/-- CIDR 10.0.0.2/24. -/
def pNetChild : Prefix4 := ⟨10, 0, 0, 2, 24⟩

/-- The label set of the net1 allocations of the test. -/
def net1Labels : List (String × String) :=
  [("nephio.org/gateway", "true"), ("nephio.org/region", "us-central1"),
    ("nephio.org/site", "edge1"), ("nephio.org/network-name", "net1")]

/-- Modelled from the spec: the allocation built by
BuildIPAllocationFromNetworkInstancePrefix for the 10.0.0.0/8 instance
prefix: an aggregate, a new top-level containing block (createPrefix
true), with no labels supplied by the test. -/
def reqAgg : IPAllocation :=
  ⟨niName, PrefixKind.aggregate, pAgg, true, [], none, none⟩

/-- The net1PrefixAllocCreate request of the test: network 10.0.0.1/24
with createPrefix true. -/
def reqNetParent : IPAllocation :=
  ⟨niName, PrefixKind.network, pNetParent, true, net1Labels, none, none⟩

/-- The net1PrefixAllocWoCreate request of the test: network 10.0.0.2/24
with createPrefix false. -/
def reqNetChild : IPAllocation :=
  ⟨niName, PrefixKind.network, pNetChild, false, net1Labels, none, none⟩

/-- Scenario state after ipam.Create of the instance (the test uses the
no-op backend, whose Restore succeeds with an empty snapshot). -/
def sCreated : IpamState := (ipamCreate [] niName (Except.ok [])).1

/-- Scenario state after allocating the 10.0.0.0/8 aggregate. -/
def sAgg : IpamState := (AllocateIPPrefix sCreated reqAgg none).1

/-- Scenario state after also allocating the 10.0.0.1/24 parent network
prefix. -/
def sParent : IpamState := (AllocateIPPrefix sAgg reqNetParent none).1

/-- Scenario state after also allocating the 10.0.0.2/24 child. -/
def sChild : IpamState := (AllocateIPPrefix sParent reqNetChild none).1

/- ------------------------------------------------------------------ -/
/- Concrete watcher scenarios.                                         -/
/- ------------------------------------------------------------------ -/

/-- The watch registry of the fan-out scenario: one ownerGvk key with
callbacks 1 for value X and 2 for value Y. -/
def regOwner : WatchRegistry := [("ownerKey", [("X", 1), ("Y", 2)])]

/-- Route r1 of the fan-out scenario, labeled with value X. -/
def rtX : Route := ⟨⟨1, 1, 1, 1, 32⟩, [("ownerKey", "X")], PrefixKind.network, false⟩

/-- Route r2 of the fan-out scenario, labeled with value Y. -/
def rtY : Route := ⟨⟨2, 2, 2, 2, 32⟩, [("ownerKey", "Y")], PrefixKind.network, false⟩

/-- Route r3 of the fan-out scenario, carrying no ownerGvk label. -/
def rtUnlabeled : Route := ⟨⟨3, 3, 3, 3, 32⟩, [], PrefixKind.network, false⟩

/-- A registry where two distinct ownerGvk keys register the same owner
value X, with distinct callbacks 1 and 2. -/
def regClash : WatchRegistry := [("k1", [("X", 1)]), ("k2", [("X", 2)])]

/-- A route carrying value X under key k1 only. -/
def rtClash1 : Route := ⟨⟨1, 1, 1, 1, 32⟩, [("k1", "X")], PrefixKind.network, false⟩

/-- A route carrying value X under key k2 only. -/
def rtClash2 : Route := ⟨⟨2, 2, 2, 2, 32⟩, [("k2", "X")], PrefixKind.network, false⟩

/-- The flattened (ownerGvk key, owner value, callback) triples of a watch
registry. -/
def pairsOf : WatchRegistry → List (String × String × Nat)
  | [] => []
  | kv :: rest => kv.2.map (fun vf => (kv.1, vf.1, vf.2)) ++ pairsOf rest

/-- All owner values registered anywhere in a watch registry. -/
def valsOf (d : WatchRegistry) : List String :=
  (pairsOf d).map (fun p => p.2.1)

/-- The routes of the supplied set carrying value v under the ownerGvk
key k, in supplied order: the fan-out subset of the owner (k, v). -/
def matchedRoutes (routes : List Route) (k v : String) : List Route :=
  routes.filter (fun rt => lookupA rt.labels k = some v)

/-- The accumulated updateMap entry of one owner after a list of matched
routes: absent while no route matched, otherwise the callback with the
matched routes. -/
def accEntry (fn : Nat) (l : List Route) : Option UpdateEntry :=
  if l = [] then none else some ⟨fn, l⟩

/- ------------------------------------------------------------------ -/
/- Association-list lemmas.                                            -/
/- ------------------------------------------------------------------ -/

theorem lookupA_append {α : Type} (d1 d2 : List (String × α)) (k : String) :
    lookupA (d1 ++ d2) k =
      match lookupA d1 k with
      | some v => some v
      | none => lookupA d2 k := by
  induction d1 with
  | nil => simp [lookupA]
  | cons kv rest ih =>
    obtain ⟨k1, x⟩ := kv
    by_cases h : k1 = k <;> simp [lookupA, h, ih]

theorem lookupA_updateA_self {α : Type} (d : List (String × α)) (k : String)
    (f : α → α) : lookupA (updateA d k f) k = (lookupA d k).map f := by
  induction d with
  | nil => simp [lookupA, updateA]
  | cons kv rest ih =>
    obtain ⟨k1, x⟩ := kv
    by_cases h : k1 = k <;> simp [lookupA, updateA, h, ih]

theorem lookupA_updateA_ne {α : Type} (d : List (String × α)) (k w : String)
    (f : α → α) (h : w ≠ k) : lookupA (updateA d k f) w = lookupA d w := by
  induction d with
  | nil => simp [updateA]
  | cons kv rest ih =>
    obtain ⟨k1, x⟩ := kv
    by_cases h1 : k1 = k
    · have hkw : ¬(k = w) := fun hh => h hh.symm
      simp [updateA, lookupA, h1, hkw]
    · simp [updateA, lookupA, h1, ih]

theorem updateA_map_fst {α : Type} (d : List (String × α)) (k : String)
    (f : α → α) : (updateA d k f).map Prod.fst = d.map Prod.fst := by
  induction d with
  | nil => simp [updateA]
  | cons kv rest ih =>
    obtain ⟨k1, x⟩ := kv
    by_cases h : k1 = k <;> simp [updateA, h, ih]

theorem updateA_of_absent {α : Type} (d : List (String × α)) (k : String)
    (f : α → α) (h : lookupA d k = none) : updateA d k f = d := by
  induction d with
  | nil => simp [updateA]
  | cons kv rest ih =>
    obtain ⟨k1, x⟩ := kv
    by_cases h1 : k1 = k
    · simp [lookupA, h1] at h
    · simp [lookupA, h1] at h
      simp [updateA, h1, ih h]

theorem updateA_of_fix {α : Type} (d : List (String × α)) (k : String)
    (f : α → α) (v : α) (h : lookupA d k = some v) (hf : f v = v) :
    updateA d k f = d := by
  induction d with
  | nil => simp [lookupA] at h
  | cons kv rest ih =>
    obtain ⟨k1, x⟩ := kv
    by_cases h1 : k1 = k
    · simp [lookupA, h1] at h
      subst h
      simp [updateA, h1, hf]
    · simp [lookupA, h1] at h
      simp [updateA, h1, ih h]

theorem removeA_of_absent {α : Type} (d : List (String × α)) (k : String)
    (h : lookupA d k = none) : removeA d k = d := by
  induction d with
  | nil => simp [removeA]
  | cons kv rest ih =>
    obtain ⟨k1, x⟩ := kv
    by_cases h1 : k1 = k
    · simp [lookupA, h1] at h
    · simp [lookupA, h1] at h
      simp [removeA, h1, ih h]

theorem lookupA_mem {α : Type} (d : List (String × α)) (k : String) (v : α)
    (h : lookupA d k = some v) : (k, v) ∈ d := by
  induction d with
  | nil => simp [lookupA] at h
  | cons kv rest ih =>
    obtain ⟨k1, x⟩ := kv
    by_cases h1 : k1 = k
    · simp [lookupA, h1] at h
      subst h1; subst h
      exact List.mem_cons_self _ _
    · simp [lookupA, h1] at h
      exact List.mem_cons_of_mem _ (ih h)

theorem lookupA_none_of_not_mem {α : Type} (d : List (String × α)) (k : String)
    (h : k ∉ d.map Prod.fst) : lookupA d k = none := by
  induction d with
  | nil => simp [lookupA]
  | cons kv rest ih =>
    obtain ⟨k1, x⟩ := kv
    rw [List.map_cons, List.mem_cons] at h
    push_neg at h
    have h1 : ¬(k1 = k) := by
      intro hh
      exact h.1 hh.symm
    simp [lookupA, h1, ih h.2]

theorem not_mem_of_lookupA_none {α : Type} (d : List (String × α)) (k : String)
    (h : lookupA d k = none) : k ∉ d.map Prod.fst := by
  induction d with
  | nil => simp
  | cons kv rest ih =>
    obtain ⟨k1, x⟩ := kv
    by_cases h1 : k1 = k
    · simp [lookupA, h1] at h
    · simp [lookupA, h1] at h
      simp [h1, ih h]
      intro hh; exact absurd hh.symm h1

theorem removeA_sublist {α : Type} (d : List (String × α)) (k : String) :
    (removeA d k).Sublist d := by
  induction d with
  | nil => simp [removeA]
  | cons kv rest ih =>
    obtain ⟨k1, x⟩ := kv
    by_cases h : k1 = k
    · simp only [removeA, if_pos h]
      exact List.sublist_cons_self _ _
    · simp only [removeA, if_neg h]
      exact List.Sublist.cons₂ (k1, x) ih

theorem mem_updateA {α : Type} (d : List (String × α)) (k : String)
    (f : α → α) (kv : String × α) (h : kv ∈ updateA d k f) :
    kv ∈ d ∨ ∃ x, (k, x) ∈ d ∧ kv = (k, f x) := by
  induction d with
  | nil => simp [updateA] at h
  | cons hd rest ih =>
    obtain ⟨k1, x⟩ := hd
    by_cases h1 : k1 = k
    · subst h1
      simp [updateA] at h
      rcases h with h | h
      · exact Or.inr ⟨x, List.mem_cons_self _ _, h⟩
      · exact Or.inl (List.mem_cons_of_mem _ h)
    · simp [updateA, h1] at h
      rcases h with h | h
      · exact Or.inl (h ▸ List.mem_cons_self _ _)
      · rcases ih h with h2 | ⟨y, hy, hkv⟩
        · exact Or.inl (List.mem_cons_of_mem _ h2)
        · exact Or.inr ⟨y, List.mem_cons_of_mem _ hy, hkv⟩

theorem length_updateA {α : Type} (d : List (String × α)) (k : String)
    (f : α → α) : (updateA d k f).length = d.length := by
  induction d with
  | nil => simp [updateA]
  | cons kv rest ih =>
    obtain ⟨k1, x⟩ := kv
    by_cases h : k1 = k <;> simp [updateA, h, ih]

theorem mem_removeA_of_nodup {α : Type} (d : List (String × α)) (k : String)
    (hnd : (d.map Prod.fst).Nodup) (kv : String × α) (h : kv ∈ removeA d k) :
    kv ∈ d ∧ kv.1 ≠ k := by
  induction d with
  | nil => simp [removeA] at h
  | cons hd rest ih =>
    obtain ⟨k1, x⟩ := hd
    rw [List.map_cons] at hnd
    have hnotin := (List.nodup_cons.mp hnd).1
    have hrest := (List.nodup_cons.mp hnd).2
    by_cases h1 : k1 = k
    · simp only [removeA, if_pos h1] at h
      refine ⟨List.mem_cons_of_mem _ h, ?_⟩
      intro hk
      apply hnotin
      rw [h1, ← hk]
      exact List.mem_map.mpr ⟨kv, h, rfl⟩
    · simp only [removeA, if_neg h1] at h
      rcases List.mem_cons.mp h with h2 | h2
      · subst h2
        exact ⟨List.mem_cons_self _ _, h1⟩
      · rcases ih hrest h2 with ⟨hmem, hne⟩
        exact ⟨List.mem_cons_of_mem _ hmem, hne⟩

/- ------------------------------------------------------------------ -/
/- Claim theorems: client proxy and simple engine claims.              -/
/- ------------------------------------------------------------------ -/

/-- C10: ValidateIpamResponse returns true exactly when the Status of the
original response unmarshals successfully, and its result never depends on
the new response (any two new responses give the same boolean). -/
theorem c10_validate_ipam_response (unmarshal : String → Option JsonAllocStatus)
    (origResp newResp newResp2 : AllocPbResponse) :
    ValidateIpamResponse unmarshal origResp newResp =
        (unmarshal origResp.status).isSome
    ∧ ValidateIpamResponse unmarshal origResp newResp =
        ValidateIpamResponse unmarshal origResp newResp2 := by
  cases h : unmarshal origResp.status with
  | none => simp [ValidateIpamResponse, h]
  | some a => simp [ValidateIpamResponse, h]

/-- C9: GetPrefixes of a network instance whose table is absent from the
registry (never created, or already deleted) returns the empty route list
instead of an error or a panic. -/
theorem c9_get_prefixes_absent (s : IpamState) (name : String)
    (h : lookupA s name = none) : GetPrefixes s name = [] := by
  simp [GetPrefixes, getRIB, h]

/-- Witness for C9 at a deleted instance of the concrete scenario. -/
theorem c9_get_prefixes_absent_witness :
    GetPrefixes (ipamDelete sChild niName) niName = [] :=
  c9_get_prefixes_absent (ipamDelete sChild niName) niName (by decide)

/-- C6: fan-out of handleUpdate over routes r1 labeled X, r2 labeled Y and
unlabeled r3, with callbacks 1 for X and 2 for Y: callback 1 is invoked
exactly once with exactly the route list consisting of r1 and the given
status code, callback 2 exactly once with exactly r2 and the code, and r3
triggers no invocation. -/
theorem c6_watch_fanout (code : Nat) :
    handleUpdate regOwner [rtX, rtY, rtUnlabeled] code =
      [(1, [rtX], code), (2, [rtY], code)] := by
  rfl

/- ------------------------------------------------------------------ -/
/- Watcher fan-out lemmas.                                             -/
/- ------------------------------------------------------------------ -/

theorem lookupA_addRouteU_self (m : List (String × UpdateEntry)) (v : String)
    (fn : Nat) (rt : Route) :
    lookupA (addRouteU m v fn rt) v =
      some (match lookupA m v with
            | some e => ⟨e.fn, e.routes ++ [rt]⟩
            | none => ⟨fn, [rt]⟩) := by
  cases h : lookupA m v with
  | some e =>
    simp [addRouteU, h, lookupA_updateA_self]
  | none =>
    simp [addRouteU, h, lookupA_append, lookupA]

theorem lookupA_addRouteU_ne (m : List (String × UpdateEntry)) (v : String)
    (fn : Nat) (rt : Route) (w : String) (hw : w ≠ v) :
    lookupA (addRouteU m v fn rt) w = lookupA m w := by
  cases h : lookupA m v with
  | some e =>
    simp [addRouteU, h, lookupA_updateA_ne _ _ _ _ hw]
  | none =>
    have hvw : ¬(v = w) := fun hh => hw hh.symm
    simp only [addRouteU, h, lookupA_append, lookupA, if_neg hvw]
    cases lookupA m w <;> rfl

theorem procVals_cons (v : String) (rt : Route) (m : List (String × UpdateEntry))
    (vf : String × Nat) (rest : List (String × Nat)) :
    procVals v rt m (vf :: rest) =
      procVals v rt (if v = vf.1 then addRouteU m v vf.2 rt else m) rest := rfl

theorem procVals_of_not_mem (v : String) (rt : Route)
    (m : List (String × UpdateEntry)) (vs : List (String × Nat))
    (h : v ∉ vs.map Prod.fst) : procVals v rt m vs = m := by
  induction vs generalizing m with
  | nil => rfl
  | cons vf rest ih =>
    rw [List.map_cons, List.mem_cons] at h
    push_neg at h
    rw [procVals_cons, if_neg h.1]
    exact ih m h.2

theorem procVals_lookup_ne (v : String) (rt : Route)
    (m : List (String × UpdateEntry)) (vs : List (String × Nat)) (w : String)
    (hw : w ≠ v) : lookupA (procVals v rt m vs) w = lookupA m w := by
  induction vs generalizing m with
  | nil => rfl
  | cons vf rest ih =>
    rw [procVals_cons]
    by_cases hv : v = vf.1
    · rw [if_pos hv, ih, lookupA_addRouteU_ne _ _ _ _ _ hw]
    · rw [if_neg hv, ih]

theorem procVals_mem_nodup (v : String) (rt : Route)
    (m : List (String × UpdateEntry)) (vs : List (String × Nat)) (fn : Nat)
    (hnd : (vs.map Prod.fst).Nodup) (hmem : (v, fn) ∈ vs) :
    procVals v rt m vs = addRouteU m v fn rt := by
  induction vs generalizing m with
  | nil => simp at hmem
  | cons vf rest ih =>
    obtain ⟨a, b⟩ := vf
    rw [List.map_cons] at hnd
    have hnotin := (List.nodup_cons.mp hnd).1
    have hrest := (List.nodup_cons.mp hnd).2
    rcases List.mem_cons.mp hmem with h | h
    · injection h with h1 h2
      subst h1
      subst h2
      rw [procVals_cons, if_pos rfl]
      exact procVals_of_not_mem _ _ _ _ hnotin
    · have hne : ¬(v = (a, b).1) := by
        intro hv
        apply hnotin
        have hvm : v ∈ rest.map Prod.fst := List.mem_map.mpr ⟨(v, fn), h, rfl⟩
        have hva : v = a := hv
        rw [← hva]
        exact hvm
      rw [procVals_cons, if_neg hne]
      exact ih m hrest h

theorem procRoute_cons (kv : String × List (String × Nat)) (rest : WatchRegistry)
    (m : List (String × UpdateEntry)) (rt : Route) :
    procRoute (kv :: rest) m rt =
      procRoute rest
        (match lookupA rt.labels kv.1 with
         | some lv => procVals lv rt m kv.2
         | none => m) rt := rfl

theorem pairsOf_cons (kv : String × List (String × Nat)) (rest : WatchRegistry) :
    pairsOf (kv :: rest) =
      kv.2.map (fun vf => (kv.1, vf.1, vf.2)) ++ pairsOf rest := rfl

theorem valsOf_cons (kv : String × List (String × Nat)) (rest : WatchRegistry) :
    valsOf (kv :: rest) = kv.2.map Prod.fst ++ valsOf rest := by
  simp [valsOf, pairsOf_cons]

theorem procRoute_lookup_not_val (d : WatchRegistry)
    (m : List (String × UpdateEntry)) (rt : Route) (w : String)
    (h : w ∉ valsOf d) : lookupA (procRoute d m rt) w = lookupA m w := by
  induction d generalizing m with
  | nil => rfl
  | cons kv rest ih =>
    rw [valsOf_cons] at h
    rw [List.mem_append] at h
    push_neg at h
    rw [procRoute_cons]
    cases hl : lookupA rt.labels kv.1 with
    | none => exact ih m h.2
    | some lv =>
      rw [ih _ h.2]
      show lookupA (procVals lv rt m kv.2) w = lookupA m w
      by_cases hw : w = lv
      · subst hw
        rw [procVals_of_not_mem _ _ _ _ h.1]
      · exact procVals_lookup_ne _ _ _ _ _ hw

theorem procRoute_lookup (d : WatchRegistry) (k v : String) (fn : Nat) :
    ∀ (m : List (String × UpdateEntry)) (rt : Route),
      (k, v, fn) ∈ pairsOf d → (valsOf d).Nodup →
      lookupA (procRoute d m rt) v =
        if lookupA rt.labels k = some v then
          some (match lookupA m v with
                | some e => ⟨e.fn, e.routes ++ [rt]⟩
                | none => ⟨fn, [rt]⟩)
        else lookupA m v := by
  induction d with
  | nil =>
    intro m rt hmem hnd
    simp [pairsOf] at hmem
  | cons kv rest ih =>
    intro m rt hmem hnd
    rw [valsOf_cons] at hnd
    have hnd1 := hnd.of_append_left
    have hnd2 := hnd.of_append_right
    have hdisj := List.disjoint_of_nodup_append hnd
    rw [pairsOf_cons, List.mem_append] at hmem
    rcases hmem with hmem | hmem
    · rcases List.mem_map.mp hmem with ⟨vf, hvf, heq⟩
      obtain ⟨a, b⟩ := vf
      have hk1 : kv.1 = k := congrArg Prod.fst heq
      have hav : a = v := congrArg (fun p => p.2.1) heq
      have hbf : b = fn := congrArg (fun p => p.2.2) heq
      have hvf2 : (v, fn) ∈ kv.2 := by
        rw [← hav, ← hbf]
        exact hvf
      have hvin : v ∈ kv.2.map Prod.fst := List.mem_map.mpr ⟨(v, fn), hvf2, rfl⟩
      have hvnot : v ∉ valsOf rest := fun hc => hdisj hvin hc
      rw [procRoute_cons, procRoute_lookup_not_val rest _ rt v hvnot, ← hk1]
      cases hl : lookupA rt.labels kv.1 with
      | none =>
        rw [if_neg (by simp)]
      | some lv =>
        by_cases hlv : lv = v
        · subst hlv
          rw [if_pos rfl]
          show lookupA (procVals lv rt m kv.2) lv = _
          rw [procVals_mem_nodup lv rt m kv.2 fn hnd1 hvf2,
            lookupA_addRouteU_self]
        · rw [if_neg (by simp [hlv])]
          show lookupA (procVals lv rt m kv.2) v = lookupA m v
          exact procVals_lookup_ne _ _ _ _ _ (fun hh => hlv hh.symm)
    · have hvin : v ∈ valsOf rest := List.mem_map.mpr ⟨(k, v, fn), hmem, rfl⟩
      have hvnot : v ∉ kv.2.map Prod.fst := fun hc => hdisj hc hvin
      have hMv :
          lookupA
            (match lookupA rt.labels kv.1 with
             | some lv => procVals lv rt m kv.2
             | none => m) v = lookupA m v := by
        cases hl : lookupA rt.labels kv.1 with
        | none => rfl
        | some lv =>
          show lookupA (procVals lv rt m kv.2) v = lookupA m v
          by_cases hlv : v = lv
          · subst hlv
            rw [procVals_of_not_mem _ _ _ _ hvnot]
          · exact procVals_lookup_ne _ _ _ _ _ hlv
      rw [procRoute_cons, ih _ rt hmem hnd2, hMv]

theorem addRouteU_keys_nodup (m : List (String × UpdateEntry)) (v : String)
    (fn : Nat) (rt : Route) (h : (m.map Prod.fst).Nodup) :
    ((addRouteU m v fn rt).map Prod.fst).Nodup := by
  cases hl : lookupA m v with
  | some e =>
    simpa [addRouteU, hl, updateA_map_fst] using h
  | none =>
    have hnot := not_mem_of_lookupA_none m v hl
    simp [addRouteU, hl, List.nodup_append, h, hnot]

theorem procVals_keys_nodup (v : String) (rt : Route)
    (m : List (String × UpdateEntry)) (vs : List (String × Nat))
    (h : (m.map Prod.fst).Nodup) :
    ((procVals v rt m vs).map Prod.fst).Nodup := by
  induction vs generalizing m with
  | nil => exact h
  | cons vf rest ih =>
    rw [procVals_cons]
    by_cases hv : v = vf.1
    · rw [if_pos hv]
      exact ih _ (addRouteU_keys_nodup m v vf.2 rt h)
    · rw [if_neg hv]
      exact ih _ h

theorem procRoute_keys_nodup (d : WatchRegistry)
    (m : List (String × UpdateEntry)) (rt : Route)
    (h : (m.map Prod.fst).Nodup) :
    ((procRoute d m rt).map Prod.fst).Nodup := by
  induction d generalizing m with
  | nil => exact h
  | cons kv rest ih =>
    rw [procRoute_cons]
    cases hl : lookupA rt.labels kv.1 with
    | none => exact ih _ h
    | some lv => exact ih _ (procVals_keys_nodup lv rt m kv.2 h)

theorem handleUpdateMap_keys_nodup (d : WatchRegistry) (routes : List Route) :
    ((handleUpdateMap d routes).map Prod.fst).Nodup := by
  have haux : ∀ (rs : List Route) (m : List (String × UpdateEntry)),
      (m.map Prod.fst).Nodup → ((rs.foldl (procRoute d) m).map Prod.fst).Nodup := by
    intro rs
    induction rs with
    | nil => intro m h; exact h
    | cons rt rest ih =>
      intro m h
      exact ih _ (procRoute_keys_nodup d m rt h)
  exact haux routes [] (by simp)

theorem countP_key_eq_one {α : Type} (m : List (String × α)) (k : String)
    (hnd : (m.map Prod.fst).Nodup) (v : α) (h : lookupA m k = some v) :
    m.countP (fun e => e.1 = k) = 1 := by
  induction m with
  | nil => simp [lookupA] at h
  | cons kv rest ih =>
    obtain ⟨k1, x⟩ := kv
    rw [List.map_cons] at hnd
    have hnotin := (List.nodup_cons.mp hnd).1
    have hrest := (List.nodup_cons.mp hnd).2
    by_cases h1 : k1 = k
    · rw [List.countP_cons]
      have hz : rest.countP (fun e => e.1 = k) = 0 := by
        rw [List.countP_eq_zero]
        intro a ha
        simp only [decide_eq_true_eq]
        intro hak
        apply hnotin
        rw [h1, ← hak]
        exact List.mem_map.mpr ⟨a, ha, rfl⟩
      simp [hz, h1]
    · rw [lookupA] at h
      rw [if_neg h1] at h
      rw [List.countP_cons]
      simp [h1, ih hrest h]

theorem matchedRoutes_append_one (routes : List Route) (k v : String) (rt : Route) :
    matchedRoutes (routes ++ [rt]) k v =
      matchedRoutes routes k v ++
        (if lookupA rt.labels k = some v then [rt] else []) := by
  simp only [matchedRoutes, List.filter_append]
  by_cases h : lookupA rt.labels k = some v <;> simp [List.filter, h]

theorem handleUpdateMap_lookup_aux (d : WatchRegistry) (k v : String) (fn : Nat)
    (hmem : (k, v, fn) ∈ pairsOf d) (hnd : (valsOf d).Nodup) :
    ∀ (rs : List Route) (m : List (String × UpdateEntry)) (cur : List Route),
      lookupA m v = accEntry fn (matchedRoutes cur k v) →
      lookupA (rs.foldl (procRoute d) m) v =
        accEntry fn (matchedRoutes (cur ++ rs) k v) := by
  intro rs
  induction rs with
  | nil =>
    intro m cur h
    simpa using h
  | cons rt rest ih =>
    intro m cur h
    rw [List.foldl_cons]
    have hstep : lookupA (procRoute d m rt) v =
        accEntry fn (matchedRoutes (cur ++ [rt]) k v) := by
      rw [procRoute_lookup d k v fn m rt hmem hnd, h,
        matchedRoutes_append_one]
      by_cases hc : lookupA rt.labels k = some v
      · rw [if_pos hc, if_pos hc]
        cases hm : matchedRoutes cur k v with
        | nil => simp [accEntry]
        | cons a l => simp [accEntry]
      · rw [if_neg hc, if_neg hc]
        simp
    have := ih (procRoute d m rt) (cur ++ [rt]) hstep
    rw [List.append_assoc] at this
    simpa using this

/-- C2 (amended): when no two registered (owner-kind key, owner value)
pairs share the same owner value, then for every registered pair (k, v)
with callback fn such that at least one supplied route carries label v
under key k, handleUpdate invokes that callback exactly once, passing
exactly the supplied routes carrying that label (in supplied order) and
the given status code: the updateMap holds exactly one entry under v, that
entry is the callback with the matched subset, and the corresponding
invocation is performed. -/
theorem c2_amended_fanout (d : WatchRegistry) (k v : String) (fn : Nat)
    (routes : List Route) (code : Nat)
    (hnd : (valsOf d).Nodup) (hmem : (k, v, fn) ∈ pairsOf d)
    (hmatch : matchedRoutes routes k v ≠ []) :
    lookupA (handleUpdateMap d routes) v = some ⟨fn, matchedRoutes routes k v⟩
    ∧ (handleUpdateMap d routes).countP (fun e => e.1 = v) = 1
    ∧ (fn, matchedRoutes routes k v, code) ∈ handleUpdate d routes code := by
  have h1 : lookupA (handleUpdateMap d routes) v =
      accEntry fn (matchedRoutes routes k v) := by
    have h0 := handleUpdateMap_lookup_aux d k v fn hmem hnd routes [] [] rfl
    simpa [handleUpdateMap] using h0
  rw [accEntry, if_neg hmatch] at h1
  refine ⟨h1, ?_, ?_⟩
  · exact countP_key_eq_one _ v (handleUpdateMap_keys_nodup d routes) _ h1
  · have hm := lookupA_mem _ _ _ h1
    exact List.mem_map.mpr ⟨(v, ⟨fn, matchedRoutes routes k v⟩), hm, rfl⟩

/-- C2 counterexample: with callbacks registered for the pairs (k1, X) and
(k2, X) (two distinct owner-kind keys sharing owner value X) and routes d1
carrying X under k1 and d2 carrying X under k2, the pair (k2, X) is
registered and matched by exactly d2, yet handleUpdate performs a single
invocation, of callback 1 with both routes: callback 2 is never invoked,
contradicting the claim that each matched pair gets its callback invoked
with exactly its own subset. -/
theorem c2_counterexample :
    handleUpdate regClash [rtClash1, rtClash2] 0 = [(1, [rtClash1, rtClash2], 0)]
    ∧ ("k2", "X", 2) ∈ pairsOf regClash
    ∧ matchedRoutes [rtClash1, rtClash2] "k2" "X" = [rtClash2]
    ∧ ∀ e ∈ handleUpdate regClash [rtClash1, rtClash2] 0, e.1 ≠ 2 := by
  decide

/-- Witness for C2 (amended) at the fan-out scenario registry. -/
theorem c2_amended_fanout_witness :
    lookupA (handleUpdateMap regOwner [rtX, rtY, rtUnlabeled]) "X" =
        some ⟨1, matchedRoutes [rtX, rtY, rtUnlabeled] "ownerKey" "X"⟩
    ∧ (handleUpdateMap regOwner [rtX, rtY, rtUnlabeled]).countP
        (fun e => e.1 = "X") = 1
    ∧ (1, matchedRoutes [rtX, rtY, rtUnlabeled] "ownerKey" "X", 7) ∈
        handleUpdate regOwner [rtX, rtY, rtUnlabeled] 7 :=
  c2_amended_fanout regOwner "ownerKey" "X" 1 [rtX, rtY, rtUnlabeled] 7
    (by decide) (by decide) (by decide)

/- ------------------------------------------------------------------ -/
/- Watch registry lifecycle lemmas.                                    -/
/- ------------------------------------------------------------------ -/

theorem lookupA_of_mem_nodup {α : Type} (d : List (String × α)) (k : String)
    (x : α) (hnd : (d.map Prod.fst).Nodup) (h : (k, x) ∈ d) :
    lookupA d k = some x := by
  induction d with
  | nil => simp at h
  | cons hd rest ih =>
    obtain ⟨k1, y⟩ := hd
    rw [List.map_cons] at hnd
    have hnotin := (List.nodup_cons.mp hnd).1
    have hrest := (List.nodup_cons.mp hnd).2
    rcases List.mem_cons.mp h with h2 | h2
    · injection h2 with ha hb
      simp only [lookupA, if_pos ha.symm]
      rw [hb]
    · have hk1 : ¬(k1 = k) := by
        intro hh
        apply hnotin
        rw [hh]
        exact List.mem_map.mpr ⟨(k, x), h2, rfl⟩
      simp only [lookupA, if_neg hk1]
      exact ih hrest h2

theorem addWatch_inv (d : WatchRegistry) (k v : String) (fn : Nat)
    (h : ∀ kv ∈ d, kv.2 ≠ []) (hnd : (d.map Prod.fst).Nodup) :
    (∀ kv ∈ addWatch d k v fn, kv.2 ≠ [])
    ∧ ((addWatch d k v fn).map Prod.fst).Nodup := by
  cases hc : lookupA d k with
  | none =>
    have hnot := not_mem_of_lookupA_none d k hc
    constructor
    · intro kv hkv
      simp only [addWatch, hc] at hkv
      rcases List.mem_append.mp hkv with hin | hin
      · exact h kv hin
      · rw [List.mem_singleton.mp hin]
        simp
    · simp only [addWatch, hc]
      rw [List.map_append]
      simp [List.nodup_append, hnd, hnot]
  | some vs =>
    constructor
    · intro kv hkv
      simp only [addWatch, hc] at hkv
      rcases mem_updateA d k _ kv hkv with hin | ⟨x, hx, hkv2⟩
      · exact h kv hin
      · rw [hkv2]
        show (match lookupA x v with
              | none => x ++ [(v, fn)]
              | some _ => updateA x v (fun _ => fn)) ≠ []
        have hxne : x ≠ [] := h (k, x) hx
        cases hlx : lookupA x v with
        | none => simp
        | some w =>
          show updateA x v (fun _ => fn) ≠ []
          intro hnil
          have hlen := length_updateA x v (fun _ => fn)
          rw [hnil] at hlen
          cases x with
          | nil => exact hxne rfl
          | cons a l => simp at hlen
    · simp only [addWatch, hc, updateA_map_fst]
      exact hnd

theorem deleteWatch_unregistered (d : WatchRegistry) (k v : String)
    (h : ∀ kv ∈ d, kv.2 ≠ [])
    (hcase : lookupA d k = none ∨
      ∃ vs, lookupA d k = some vs ∧ lookupA vs v = none) :
    deleteWatch d k v = d := by
  rcases hcase with hc | ⟨vs, hc, hv⟩
  · simp [deleteWatch, hc, removeA_of_absent d k hc]
  · have hfix : removeA vs v = vs := removeA_of_absent vs v hv
    have hupd : updateA d k (fun x => removeA x v) = d :=
      updateA_of_fix d k _ vs hc hfix
    have hvs : vs ≠ [] := h (k, vs) (lookupA_mem d k vs hc)
    have hvsE : vs.isEmpty = false := by
      cases vs with
      | nil => exact absurd rfl hvs
      | cons a l => rfl
    simp only [deleteWatch, hc, hupd, Option.getD_some, hvsE]
    simp

theorem deleteWatch_inv (d : WatchRegistry) (k v : String)
    (h : ∀ kv ∈ d, kv.2 ≠ []) (hnd : (d.map Prod.fst).Nodup) :
    (∀ kv ∈ deleteWatch d k v, kv.2 ≠ [])
    ∧ ((deleteWatch d k v).map Prod.fst).Nodup := by
  cases hc : lookupA d k with
  | none =>
    rw [deleteWatch_unregistered d k v h (Or.inl hc)]
    exact ⟨h, hnd⟩
  | some vs =>
    have hd1mem := mem_updateA d k (fun x => removeA x v)
    have hd1nd : ((updateA d k (fun x => removeA x v)).map Prod.fst).Nodup := by
      rw [updateA_map_fst]
      exact hnd
    have hlk1 : lookupA (updateA d k (fun x => removeA x v)) k =
        some (removeA vs v) := by
      rw [lookupA_updateA_self, hc]
      rfl
    cases hre : (removeA vs v).isEmpty with
    | true =>
      have hres : deleteWatch d k v =
          removeA (updateA d k (fun x => removeA x v)) k := by
        simp only [deleteWatch, hc, hlk1, Option.getD_some, hre]
        simp
      rw [hres]
      constructor
      · intro kv hkv
        rcases mem_removeA_of_nodup _ k hd1nd kv hkv with ⟨hkv1, hkne⟩
        rcases hd1mem kv hkv1 with hin | ⟨x, hx, hkv2⟩
        · exact h kv hin
        · exact absurd (congrArg Prod.fst hkv2) hkne
      · have hsub := removeA_sublist (updateA d k (fun x => removeA x v)) k
        exact List.Nodup.sublist (hsub.map Prod.fst) hd1nd
    | false =>
      have hres : deleteWatch d k v = updateA d k (fun x => removeA x v) := by
        simp only [deleteWatch, hc, hlk1, Option.getD_some, hre]
        simp
      rw [hres]
      refine ⟨?_, hd1nd⟩
      intro kv hkv
      rcases hd1mem kv hkv with hin | ⟨x, hx, hkv2⟩
      · exact h kv hin
      · have hx2 : lookupA d k = some x := lookupA_of_mem_nodup d k x hnd hx
        rw [hc] at hx2
        injection hx2 with hxe
        rw [hkv2]
        intro hnil
        simp only at hnil
        rw [← hxe] at hnil
        rw [hnil] at hre
        simp at hre

theorem applyWatchOp_inv (d : WatchRegistry) (op : WatchOp)
    (h : ∀ kv ∈ d, kv.2 ≠ []) (hnd : (d.map Prod.fst).Nodup) :
    (∀ kv ∈ applyWatchOp d op, kv.2 ≠ [])
    ∧ ((applyWatchOp d op).map Prod.fst).Nodup := by
  cases op with
  | add k v fn => exact addWatch_inv d k v fn h hnd
  | del k v => exact deleteWatch_inv d k v h hnd

theorem runWatchOps_inv_aux (ops : List WatchOp) :
    ∀ d : WatchRegistry, (∀ kv ∈ d, kv.2 ≠ []) → (d.map Prod.fst).Nodup →
      (∀ kv ∈ ops.foldl applyWatchOp d, kv.2 ≠ [])
      ∧ ((ops.foldl applyWatchOp d).map Prod.fst).Nodup := by
  induction ops with
  | nil =>
    intro d h hnd
    exact ⟨h, hnd⟩
  | cons op rest ih =>
    intro d h hnd
    rw [List.foldl_cons]
    rcases applyWatchOp_inv d op h hnd with ⟨h2, hnd2⟩
    exact ih _ h2 hnd2

/-- C8: across every finite sequence of addWatch and deleteWatch calls
from the empty registry, every present owner-kind key maps to a non-empty
inner value map (deleteWatch prunes an outer entry that becomes empty) and
the outer keys stay distinct; moreover deleteWatch of an unregistered key,
or of an unregistered value under a registered key, leaves any
invariant-satisfying registry unchanged and does not fail. -/
theorem c8_watch_registry :
    (∀ ops : List WatchOp,
      (∀ kv ∈ runWatchOps ops, kv.2 ≠ [])
      ∧ ((runWatchOps ops).map Prod.fst).Nodup)
    ∧ (∀ (d : WatchRegistry) (k v : String),
        (∀ kv ∈ d, kv.2 ≠ []) →
        (lookupA d k = none ∨
          ∃ vs, lookupA d k = some vs ∧ lookupA vs v = none) →
        deleteWatch d k v = d) := by
  constructor
  · intro ops
    exact runWatchOps_inv_aux ops [] (by simp) (by simp)
  · intro d k v h hcase
    exact deleteWatch_unregistered d k v h hcase

/-- Witness for C8: a concrete operation sequence and a concrete
unregistered deleteWatch call. -/
theorem c8_watch_registry_witness :
    ((∀ kv ∈ runWatchOps
        [WatchOp.add "k" "v" 1, WatchOp.add "k" "w" 2, WatchOp.del "k" "v"],
        kv.2 ≠ [])
      ∧ ((runWatchOps
        [WatchOp.add "k" "v" 1, WatchOp.add "k" "w" 2, WatchOp.del "k" "v"]).map
          Prod.fst).Nodup)
    ∧ deleteWatch [("k", [("v", 1)])] "k" "zz" = [("k", [("v", 1)])] :=
  ⟨c8_watch_registry.1
      [WatchOp.add "k" "v" 1, WatchOp.add "k" "w" 2, WatchOp.del "k" "v"],
    c8_watch_registry.2 [("k", [("v", 1)])] "k" "zz" (by decide)
      (Or.inr ⟨[("v", 1)], rfl, rfl⟩)⟩

/- ------------------------------------------------------------------ -/
/- Engine lemmas.                                                      -/
/- ------------------------------------------------------------------ -/

theorem getRIB_ok_lookup (s : IpamState) (name : String) (init : Bool)
    (ri : RibInstance) (h : getRIB s name init = Except.ok ri) :
    lookupA s name = some ri := by
  cases hl : lookupA s name with
  | none => simp [getRIB, hl] at h
  | some x =>
    simp only [getRIB, hl] at h
    by_cases hc : init = false ∧ x.initialized = false
    · rw [if_pos hc] at h
      cases h
    · rw [if_neg hc] at h
      injection h with h2
      rw [h2]

theorem lookupA_ribCreate_self (s : IpamState) (name : String) :
    lookupA (ribCreate s name) name =
      match lookupA s name with
      | some ri => some ri
      | none => some ⟨[], false⟩ := by
  cases h : lookupA s name with
  | some ri => simp [ribCreate, h]
  | none => simp [ribCreate, h, lookupA_append, lookupA]

theorem setInitializedS_marks (s : IpamState) (name : String)
    (ri : RibInstance) (h : lookupA s name = some ri) :
    (setInitializedS s name).2 = none
    ∧ isInitializedS (setInitializedS s name).1 name = true := by
  constructor
  · simp [setInitializedS, h]
  · simp [setInitializedS, h, isInitializedS, lookupA_updateA_self]

theorem ipamCreate_marks (s : IpamState) (name : String)
    (r : Except String (List Route)) :
    isInitializedS (ipamCreate s name r).1 name = true
    ∧ (ipamCreate s name r).2.1 = none := by
  have hs1 : ∃ ri1, lookupA (ribCreate s name) name = some ri1 := by
    rw [lookupA_ribCreate_self]
    cases lookupA s name with
    | some ri => exact ⟨ri, rfl⟩
    | none => exact ⟨⟨[], false⟩, rfl⟩
  obtain ⟨ri1, hri1⟩ := hs1
  by_cases hinit : isInitializedS (ribCreate s name) name
  · constructor
    · simp only [ipamCreate, if_pos hinit]
      exact hinit
    · simp only [ipamCreate, if_pos hinit]
  · cases r with
    | ok rts =>
      have hri2 : lookupA
          (updateA (ribCreate s name) name (fun ri => ⟨rts, ri.initialized⟩))
          name = some ⟨rts, ri1.initialized⟩ := by
        rw [lookupA_updateA_self, hri1]
        rfl
      have hset := setInitializedS_marks _ name _ hri2
      constructor
      · simp only [ipamCreate, if_neg hinit]
        exact hset.2
      · simp only [ipamCreate, if_neg hinit]
        exact hset.1
    | error e =>
      have hset := setInitializedS_marks _ name _ hri1
      constructor
      · simp only [ipamCreate, if_neg hinit]
        exact hset.2
      · simp only [ipamCreate, if_neg hinit]
        exact hset.1

theorem ipamCreate_noop (s : IpamState) (name : String)
    (h : isInitializedS s name = true) (r : Except String (List Route)) :
    ipamCreate s name r = (s, none, false) := by
  have hsome : ∃ ri, lookupA s name = some ri := by
    cases hl : lookupA s name with
    | none => simp [isInitializedS, hl] at h
    | some ri => exact ⟨ri, rfl⟩
  obtain ⟨ri, hl⟩ := hsome
  have hrc : ribCreate s name = s := by simp [ribCreate, hl]
  simp [ipamCreate, hrc, h]

theorem ribInsert_ok (routes : List Route) (rt : Route) (rts : List Route)
    (h : ribInsert routes rt = Except.ok rts) : rts = routes ++ [rt] := by
  by_cases hany : routes.any (fun r => r.pfx = rt.pfx)
  · simp [ribInsert, hany] at h
  · simp [ribInsert, hany] at h
    rw [h]

theorem opApply_ok_rts (routes : List Route) (req : IPAllocation)
    (rts : List Route) (upd : IPAllocation)
    (h : opApply routes req = Except.ok (rts, upd)) :
    rts = routes ++ [⟨req.pfx, req.labels, req.prefixKind, req.createPrefix⟩] := by
  by_cases hc : req.createPrefix = true
  · simp only [opApply, if_pos hc] at h
    cases hins : ribInsert routes ⟨req.pfx, req.labels, req.prefixKind, true⟩ with
    | error e =>
      rw [hins] at h
      cases h
    | ok rts2 =>
      rw [hins] at h
      injection h with h2
      have h3 : rts2 = rts := congrArg Prod.fst h2
      rw [← h3, ribInsert_ok routes _ rts2 hins, hc]
  · simp only [opApply, if_neg hc] at h
    cases hins : ribInsert routes ⟨req.pfx, req.labels, req.prefixKind, false⟩ with
    | error e =>
      rw [hins] at h
      cases h
    | ok rts2 =>
      rw [hins] at h
      injection h with h2
      have h3 : rts2 = rts := congrArg Prod.fst h2
      have hc2 : req.createPrefix = false := by
        cases hcc : req.createPrefix with
        | true => exact absurd hcc hc
        | false => rfl
      rw [← h3, ribInsert_ok routes _ rts2 hins, hc2]

theorem opApply_fresh (routes : List Route) (req : IPAllocation)
    (hany : routes.any (fun r => r.pfx = req.pfx) = false) :
    ∃ rts upd, opApply routes req = Except.ok (rts, upd)
      ∧ upd.allocatedPrefix = some req.pfx := by
  by_cases hc : req.createPrefix = true
  · refine ⟨routes ++ [⟨req.pfx, req.labels, req.prefixKind, true⟩],
      ⟨req.networkInstance, req.prefixKind, req.pfx, req.createPrefix,
        req.labels, some req.pfx, req.gateway⟩, ?_, rfl⟩
    simp [opApply, hc, ribInsert, hany]
  · refine ⟨routes ++ [⟨req.pfx, req.labels, req.prefixKind, false⟩],
      ⟨req.networkInstance, req.prefixKind, req.pfx, req.createPrefix,
        req.labels, some req.pfx,
        match req.prefixKind with
        | PrefixKind.network =>
          match longestMatchNetParent routes req.pfx with
          | some parent => lookupA parent.labels "gateway"
          | none => none
        | _ => none⟩, ?_, rfl⟩
    simp [opApply, hc, ribInsert, hany]

theorem allocate_ok_shape (s : IpamState) (req : IPAllocation)
    (ri : RibInstance) (storeErr : Option String) (rts : List Route)
    (upd : IPAllocation)
    (hrib : getRIB s req.networkInstance false = Except.ok ri)
    (hval : opValidate ri.routes req = ("", none))
    (happ : opApply ri.routes req = Except.ok (rts, upd)) :
    AllocateIPPrefix s req storeErr =
      (updateA s req.networkInstance (fun x => ⟨rts, x.initialized⟩),
        some upd, storeErr) := by
  simp [AllocateIPPrefix, hrib, hval, happ]

/- ------------------------------------------------------------------ -/
/- Engine claim theorems.                                              -/
/- ------------------------------------------------------------------ -/

/-- C1: for every network instance table, an AllocateIPPrefix request of
kind network with createPrefix false for which no applied route of kind
network with createPrefix true contains the requested prefix fails with
the validation error naming the missing parent network prefix, and the
registry (hence the table) is left completely unchanged. -/
theorem c1_containment_validation (s : IpamState) (req : IPAllocation)
    (ri : RibInstance) (storeErr : Option String)
    (hrib : getRIB s req.networkInstance false = Except.ok ri)
    (hkind : req.prefixKind = PrefixKind.network)
    (hcp : req.createPrefix = false)
    (hnoparent : ∀ rt ∈ ri.routes,
      ¬(rt.prefixKind = PrefixKind.network ∧ rt.createPrefix = true ∧
        containsP rt.pfx req.pfx = true)) :
    AllocateIPPrefix s req storeErr =
      (s, none,
        some ("validated failed: " ++ errValidateNetworkPrefixWoNetworkParent)) := by
  have hfil : ri.routes.filter
      (fun rt => rt.prefixKind = PrefixKind.network ∧ rt.createPrefix = true ∧
        containsP rt.pfx req.pfx = true) = [] := by
    rw [List.filter_eq_nil_iff]
    intro rt hrt
    simpa using hnoparent rt hrt
  have hlm : longestMatchNetParent ri.routes req.pfx = none := by
    rw [longestMatchNetParent, hfil]
    rfl
  have hval : opValidate ri.routes req =
      (errValidateNetworkPrefixWoNetworkParent, none) := by
    simp [opValidate, hkind, hcp, hlm]
  have hne : ¬(errValidateNetworkPrefixWoNetworkParent = "") := by decide
  simp [AllocateIPPrefix, hrib, hval, hne]

/-- Witness for C1 at the scenario table holding only the 10.0.0.0/8
aggregate, with the 10.0.0.2/24 network request. -/
theorem c1_containment_validation_witness :
    AllocateIPPrefix sAgg reqNetChild none =
      (sAgg, none,
        some ("validated failed: " ++ errValidateNetworkPrefixWoNetworkParent)) :=
  c1_containment_validation sAgg reqNetChild
    ⟨[⟨pAgg, [], PrefixKind.aggregate, true⟩], true⟩ none
    (by rfl) (by decide) (by decide) (by decide)

/-- C3 counterexample: the rejected 10.0.0.2/24 request is a well-formed
but rejected request (Validate yields a non-empty diagnostic and a nil
error), yet AllocateIPPrefix hands the caller an error value and a nil
allocation, not a non-error outcome. -/
theorem c3_counterexample :
    (opValidate (GetPrefixes sAgg niName) reqNetChild).1 ≠ ""
    ∧ (opValidate (GetPrefixes sAgg niName) reqNetChild).2 = none
    ∧ (AllocateIPPrefix sAgg reqNetChild none).2.2 ≠ none
    ∧ (AllocateIPPrefix sAgg reqNetChild none).2.1 = none := by
  decide

/-- C3 (amended): Validate reports a rejection through a non-empty
diagnostic with a nil error; the engine then surfaces the rejection to the
caller as the error value "validated failed:" followed by the diagnostic,
with a nil allocation and no table mutation. -/
theorem c3_validation_surfaced_as_error :
    (∀ (routes : List Route) (req : IPAllocation),
      (opValidate routes req).2 = none)
    ∧ (∀ (s : IpamState) (req : IPAllocation) (ri : RibInstance)
        (storeErr : Option String) (msg : String),
        getRIB s req.networkInstance false = Except.ok ri →
        opValidate ri.routes req = (msg, none) → msg ≠ "" →
        AllocateIPPrefix s req storeErr =
          (s, none, some ("validated failed: " ++ msg))) := by
  constructor
  · intro routes req
    cases hk : req.prefixKind with
    | network =>
      by_cases hc : req.createPrefix = false
      · cases hlm : longestMatchNetParent routes req.pfx with
        | none => simp [opValidate, hk, hc, hlm]
        | some rt => simp [opValidate, hk, hc, hlm]
      · simp [opValidate, hk, hc]
    | loopback => simp [opValidate, hk]
    | pool => simp [opValidate, hk]
    | aggregate => simp [opValidate, hk]
  · intro s req ri storeErr msg hrib hval hmsg
    simp [AllocateIPPrefix, hrib, hval, hmsg]

/-- Witness for C3 (amended) at the scenario rejection. -/
theorem c3_validation_surfaced_as_error_witness :
    (opValidate [] reqNetChild).2 = none
    ∧ AllocateIPPrefix sAgg reqNetChild none =
        (sAgg, none,
          some ("validated failed: " ++ errValidateNetworkPrefixWoNetworkParent)) :=
  ⟨c3_validation_surfaced_as_error.1 [] reqNetChild,
    c3_validation_surfaced_as_error.2 sAgg reqNetChild
      ⟨[⟨pAgg, [], PrefixKind.aggregate, true⟩], true⟩ none
      errValidateNetworkPrefixWoNetworkParent
      (by rfl) (by decide) (by decide)⟩

/-- C4: calling Create twice for the same instance name is idempotent: the
second call is a no-op returning nil that leaves the registry unchanged
and does not invoke backend Restore again; Restore is invoked by a call
exactly when the initialized latch was not yet set (the guard). -/
theorem c4_create_idempotent (s : IpamState) (name : String)
    (r1 r2 : Except String (List Route)) :
    ipamCreate (ipamCreate s name r1).1 name r2 =
      ((ipamCreate s name r1).1, none, false)
    ∧ (ipamCreate s name r1).2.2 =
        !(isInitializedS (ribCreate s name) name) := by
  constructor
  · exact ipamCreate_noop _ name (ipamCreate_marks s name r1).1 r2
  · by_cases hinit : isInitializedS (ribCreate s name) name
    · simp [ipamCreate, hinit]
    · cases r1 with
      | ok rts => simp [ipamCreate, hinit]
      | error e => simp [ipamCreate, hinit]

/-- C5 counterexample: re-issuing the already-satisfied 10.0.0.2/24
request passes validation (its parent network prefix exists) yet the call
fails with an already-exists error instead of succeeding. -/
theorem c5_counterexample :
    (opValidate (GetPrefixes sChild niName) reqNetChild).1 = ""
    ∧ (AllocateIPPrefix sChild reqNetChild none).2.1 = none
    ∧ (AllocateIPPrefix sChild reqNetChild none).2.2 =
        some "route already exists" := by
  decide

/-- C5 (amended): an explicit-prefix request that passes validation and
whose exact prefix is not yet present in the table succeeds, returning the
requested prefix as the allocated prefix; in the scenario, creating parent
10.0.0.1/24 with createPrefix true succeeds with allocated prefix
10.0.0.1/24, after which the 10.0.0.2/24 createPrefix false request
succeeds with allocated prefix 10.0.0.2/24. -/
theorem c5_explicit_allocation :
    (∀ (s : IpamState) (req : IPAllocation) (ri : RibInstance),
      getRIB s req.networkInstance false = Except.ok ri →
      opValidate ri.routes req = ("", none) →
      (∀ rt ∈ ri.routes, rt.pfx ≠ req.pfx) →
      ∃ upd, (AllocateIPPrefix s req none).2.1 = some upd
        ∧ upd.allocatedPrefix = some req.pfx
        ∧ (AllocateIPPrefix s req none).2.2 = none)
    ∧ (AllocateIPPrefix sAgg reqNetParent none).2.1 =
        some ⟨niName, PrefixKind.network, pNetParent, true, net1Labels,
          some pNetParent, none⟩
    ∧ (AllocateIPPrefix sParent reqNetChild none).2.1 =
        some ⟨niName, PrefixKind.network, pNetChild, false, net1Labels,
          some pNetChild, none⟩
    ∧ renderP pNetParent = "10.0.0.1/24"
    ∧ renderP pNetChild = "10.0.0.2/24" := by
  refine ⟨?_, by decide, by decide, by decide, by decide⟩
  intro s req ri hrib hval hfresh
  have hany : ri.routes.any (fun r => r.pfx = req.pfx) = false := by
    rw [List.any_eq_false]
    intro rt hrt
    simpa using hfresh rt hrt
  obtain ⟨rts, upd, happ, hupd⟩ := opApply_fresh ri.routes req hany
  refine ⟨upd, ?_, hupd, ?_⟩
  · rw [allocate_ok_shape s req ri none rts upd hrib hval happ]
  · rw [allocate_ok_shape s req ri none rts upd hrib hval happ]

/-- Witness for C5 (amended) instantiating its universal part at the
scenario parent-present table. -/
theorem c5_explicit_allocation_witness :
    ∃ upd, (AllocateIPPrefix sParent reqNetChild none).2.1 = some upd
      ∧ upd.allocatedPrefix = some reqNetChild.pfx
      ∧ (AllocateIPPrefix sParent reqNetChild none).2.2 = none :=
  c5_explicit_allocation.1 sParent reqNetChild
    ⟨[⟨pAgg, [], PrefixKind.aggregate, true⟩,
      ⟨pNetParent, net1Labels, PrefixKind.network, true⟩], true⟩
    (by rfl) (by decide) (by decide)

/-- C7: a backend failure never rolls back a completed in-memory
mutation: when Apply has inserted the route, AllocateIPPrefix returns the
applied allocation together with the Store error and the inserted route is
present in the instance table of the resulting registry; and a backend
Restore error during Create still leaves the instance marked initialized
(with a nil result). -/
theorem c7_backend_failure_no_rollback :
    (∀ (s : IpamState) (req : IPAllocation) (ri : RibInstance)
        (rts : List Route) (upd : IPAllocation) (e : String),
      getRIB s req.networkInstance false = Except.ok ri →
      opValidate ri.routes req = ("", none) →
      opApply ri.routes req = Except.ok (rts, upd) →
      AllocateIPPrefix s req (some e) =
        (updateA s req.networkInstance (fun x => ⟨rts, x.initialized⟩),
          some upd, some e)
      ∧ ∃ ri2,
          lookupA (AllocateIPPrefix s req (some e)).1 req.networkInstance =
            some ri2
          ∧ (⟨req.pfx, req.labels, req.prefixKind, req.createPrefix⟩ : Route)
              ∈ ri2.routes)
    ∧ (∀ (s : IpamState) (name : String) (e : String),
        isInitializedS (ipamCreate s name (Except.error e)).1 name = true
        ∧ (ipamCreate s name (Except.error e)).2.1 = none) := by
  constructor
  · intro s req ri rts upd e hrib hval happ
    have hshape := allocate_ok_shape s req ri (some e) rts upd hrib hval happ
    have hlook := getRIB_ok_lookup s req.networkInstance false ri hrib
    have hrts := opApply_ok_rts ri.routes req rts upd happ
    refine ⟨hshape, ⟨rts, ri.initialized⟩, ?_, ?_⟩
    · rw [hshape]
      show lookupA (updateA s req.networkInstance
        (fun x => ⟨rts, x.initialized⟩)) req.networkInstance = _
      rw [lookupA_updateA_self, hlook]
      rfl
    · show _ ∈ rts
      rw [hrts]
      exact List.mem_append_right _ (List.mem_singleton.mpr rfl)
  · intro s name e
    exact ipamCreate_marks s name (Except.error e)

/-- Witness for C7: a failing Store after the scenario child insertion,
and a failing Restore on a fresh instance. -/
theorem c7_backend_failure_no_rollback_witness :
    (AllocateIPPrefix sParent reqNetChild (some "store failed") =
      (updateA sParent niName (fun x =>
        ⟨[⟨pAgg, [], PrefixKind.aggregate, true⟩,
          ⟨pNetParent, net1Labels, PrefixKind.network, true⟩,
          ⟨pNetChild, net1Labels, PrefixKind.network, false⟩],
          x.initialized⟩),
        some ⟨niName, PrefixKind.network, pNetChild, false, net1Labels,
          some pNetChild, none⟩, some "store failed")
      ∧ ∃ ri2, lookupA (AllocateIPPrefix sParent reqNetChild
            (some "store failed")).1 niName = some ri2
          ∧ (⟨pNetChild, net1Labels, PrefixKind.network, false⟩ : Route)
              ∈ ri2.routes)
    ∧ (isInitializedS (ipamCreate [] "fresh" (Except.error "restore failed")).1
          "fresh" = true
        ∧ (ipamCreate [] "fresh" (Except.error "restore failed")).2.1 = none) :=
  ⟨c7_backend_failure_no_rollback.1 sParent reqNetChild
      ⟨[⟨pAgg, [], PrefixKind.aggregate, true⟩,
        ⟨pNetParent, net1Labels, PrefixKind.network, true⟩], true⟩
      [⟨pAgg, [], PrefixKind.aggregate, true⟩,
        ⟨pNetParent, net1Labels, PrefixKind.network, true⟩,
        ⟨pNetChild, net1Labels, PrefixKind.network, false⟩]
      ⟨niName, PrefixKind.network, pNetChild, false, net1Labels,
        some pNetChild, none⟩
      "store failed" (by rfl) (by decide) (by rfl),
    c7_backend_failure_no_rollback.2 [] "fresh" "restore failed"⟩
